import Mathlib

/-!
Verification of the tiered memory store of `BaozongSuperAgent`
(`src/memory/hybrid_memory_fixed.py`, `src/memory/memory_enhancer.py`,
`src/memory/vector_memory.py`).

The Python classes are shallowly embedded: `MemoryEntry` mirrors the
dataclass, `MemState` mirrors the in-memory fields of
`HybridMemorySystem` plus the SQLite `memories` table, and each method is
a pure Lean function.  Python floats are modelled as `ℚ`; `time.time()`
is passed explicitly as a `now : ℚ` argument; the md5-based
`_generate_id` is abstracted as an explicit `genId : String → String`
argument (no claim depends on the concrete hash).  Python dicts are
modelled as insertion-ordered association lists, matching the documented
iteration order of `dict` and its overwrite-in-place semantics;
`deque(maxlen=50)` is a list that drops its head on overflow.
`list.sort(key=..., reverse=True)` is a stable descending sort keyed on
the score, embedded as `List.insertionSort` with the relation
`fun x y => y.2 ≤ x.2`; sortedness and stability of this embedding are
proved below (`sorted_score_and_rank`, the filter lemmas), which is
exactly the pair of properties that characterises Python's stable sort.
-/

/-- `str.lower()` on a Python string, as a list of characters. -/
def lowerChars (s : String) : List Char := s.toList.map Char.toLower

/-- `hay.startswith(pat)` on character lists. -/
def charsStartWith : List Char → List Char → Bool
  | _, [] => true
  | [], _ :: _ => false
  | a :: as, b :: bs => a = b && charsStartWith as bs

/-- `pat in hay` (Python substring test) on character lists. -/
def hasSubList (hay pat : List Char) : Bool :=
  match hay with
  | [] => pat.isEmpty
  | _ :: as => charsStartWith hay pat || hasSubList as pat

/-- The `MemoryEntry` dataclass of `hybrid_memory_fixed.py`. -/
structure MemoryEntry where
  id : String
  content : String
  timestamp : ℚ
  memory_type : String
  importance : ℚ
  tags : List String
  metadata : List (String × String)
deriving DecidableEq, Repr

/-- In-memory fields of `HybridMemorySystem` (`_init_memory_components`)
together with the rows of the SQLite `memories` table (`db`).
`working` is the `deque(maxlen=50)`, oldest first; `semantic_memory`,
`procedural_memory` and `project_memory` are insertion-ordered dicts. -/
structure MemState where
  working : List MemoryEntry
  semantic_memory : List (String × MemoryEntry)
  episodic : List MemoryEntry
  procedural : List (String × MemoryEntry)
  project : List (String × List MemoryEntry)
  db : List MemoryEntry
deriving DecidableEq, Repr

/-- `_init_memory_components` of `hybrid_memory_fixed.py`: every
partition starts empty; the `memories` table rows (`db`) are whatever
the reopened SQLite file already holds.  No reload from `db` happens. -/
def init_memory_components (db : List MemoryEntry) : MemState :=
  { working := [], semantic_memory := [], episodic := [], procedural := [],
    project := [], db := db }

/-- `deque(maxlen=n).append`: the oldest entries are dropped once the
capacity is exceeded. -/
def dequeAppend (cap : ℕ) (l : List MemoryEntry) (e : MemoryEntry) : List MemoryEntry :=
  let l' := l ++ [e]
  if cap < l'.length then l'.drop (l'.length - cap) else l'

/-- Python dict assignment `d[k] = v`: overwrite in place, else append. -/
def assocSet {α : Type} (k : String) (v : α) : List (String × α) → List (String × α)
  | [] => [(k, v)]
  | (k', v') :: rest => if k' = k then (k, v) :: rest else (k', v') :: assocSet k v rest

/-- `INSERT OR REPLACE INTO memories` keyed by `id`: the conflicting row
is deleted and the new row appended. -/
def dbUpsert (e : MemoryEntry) (db : List MemoryEntry) : List MemoryEntry :=
  (db.filter (fun r => !(r.id == e.id))) ++ [e]

/-- Construction of the `MemoryEntry` inside `add_memory`:
`id=self._generate_id(content + str(time.time()))`, `timestamp=time.time()`. -/
def mkEntry (genId : String → String) (now : ℚ) (content memory_type : String)
    (importance : ℚ) (tags : List String) (metadata : List (String × String)) : MemoryEntry :=
  { id := genId (content ++ toString now), content := content, timestamp := now,
    memory_type := memory_type, importance := importance, tags := tags,
    metadata := metadata }

/-- `HybridMemorySystem.add_memory` of `hybrid_memory_fixed.py`: build the
entry, route it to the partition selected by `memory_type` (any other
type goes to no partition), persist it to the `memories` table, and
return its id. -/
def add_memory (genId : String → String) (now : ℚ) (s : MemState)
    (content memory_type : String) (importance : ℚ)
    (tags : List String) (metadata : List (String × String)) : String × MemState :=
  let entry := mkEntry genId now content memory_type importance tags metadata
  let s₁ :=
    if memory_type = "working" then
      { s with working := dequeAppend 50 s.working entry }
    else if memory_type = "episodic" then
      { s with episodic := s.episodic ++ [entry] }
    else if memory_type = "procedural" then
      let skill_name := ((metadata.lookup "skill_name").getD "unknown")
      { s with procedural := assocSet skill_name entry s.procedural }
    else if memory_type = "project" then
      let project_name := ((metadata.lookup "project_name").getD "default")
      let entries := (s.project.lookup project_name).getD []
      { s with project := assocSet project_name (entries ++ [entry]) s.project }
    else s
  (entry.id, { s₁ with db := dbUpsert entry s₁.db })

/-- The content test `query_lower in entry.content.lower()` shared by the
four `_search_*` methods. -/
def entryMatches (queryL : List Char) (e : MemoryEntry) : Bool :=
  hasSubList (lowerChars e.content) queryL

/-- `_search_working_memory`. -/
def search_working_memory (s : MemState) (queryL : List Char) : List MemoryEntry :=
  s.working.filter (entryMatches queryL)

/-- `_search_episodic_memory`. -/
def search_episodic_memory (s : MemState) (queryL : List Char) : List MemoryEntry :=
  s.episodic.filter (entryMatches queryL)

/-- `_search_procedural_memory`: an entry is kept when the query occurs
in the skill name or in the content. -/
def search_procedural_memory (s : MemState) (queryL : List Char) : List MemoryEntry :=
  s.procedural.foldl
    (fun acc kv =>
      if hasSubList (lowerChars kv.1) queryL || entryMatches queryL kv.2 then
        acc ++ [kv.2]
      else acc) []

/-- `_search_project_memory`: a matching project name contributes all of
its entries, otherwise the entries are filtered by content. -/
def search_project_memory (s : MemState) (queryL : List Char) : List MemoryEntry :=
  s.project.foldl
    (fun acc kv =>
      if hasSubList (lowerChars kv.1) queryL then acc ++ kv.2
      else acc ++ kv.2.filter (entryMatches queryL)) []

/-- Per-entry score of `_score_and_rank_results`: the `match_score`
accumulation (content hit 1.0, prefix bonus 0.5, 0.3 per matching tag via
a fold over the tags), the `time_factor` decay, and the final weighted
sum exactly as written in the source. -/
def entryScore (queryL : List Char) (now : ℚ) (e : MemoryEntry) : ℚ :=
  let contentL := lowerChars e.content
  let m₁ : ℚ :=
    if hasSubList contentL queryL then
      (if charsStartWith contentL queryL then (1 : ℚ) + 5/10 else 1)
    else 0
  let m₂ : ℚ := e.tags.foldl
    (fun acc tag => if hasSubList (lowerChars tag) queryL then acc + 3/10 else acc) m₁
  let time_factor : ℚ := max (1/10) (1 - (now - e.timestamp) / (7 * 24 * 3600))
  m₂ * (6/10) + e.importance * (3/10) + time_factor * (1/10)

/-- `_score_and_rank_results`: score every candidate in order, then
`scored_results.sort(key=lambda x: x[1], reverse=True)` — a stable
descending sort on the score. -/
def score_and_rank_results (queryL : List Char) (now : ℚ)
    (results : List MemoryEntry) : List (MemoryEntry × ℚ) :=
  List.insertionSort (fun x y => y.2 ≤ x.2)
    (results.map (fun e => (e, entryScore queryL now e)))

/-- Candidate gathering inside `smart_recall`: the four `extend` calls,
gated by membership of the tier name in `memory_types`.  No branch scans
`semantic_memory` — the source has no `_search_semantic_memory`. -/
def gather_results (s : MemState) (queryL : List Char) (types : List String) : List MemoryEntry :=
  (if "working" ∈ types then search_working_memory s queryL else []) ++
  (if "episodic" ∈ types then search_episodic_memory s queryL else []) ++
  (if "procedural" ∈ types then search_procedural_memory s queryL else []) ++
  (if "project" ∈ types then search_project_memory s queryL else [])

/-- The default for the `memory_types=None` argument of `smart_recall`. -/
def defaultMemoryTypes : List String :=
  ["working", "semantic", "episodic", "procedural", "project"]

/-- `HybridMemorySystem.smart_recall`: gather candidates from the
`working`, `episodic`, `procedural` and `project` partitions (in that
order, gated by `memory_types`), score and rank them, drop entries whose
importance is below `min_importance`, and truncate to `max_results`. -/
def smart_recall (s : MemState) (now : ℚ) (query : String)
    (memory_types : Option (List String)) (max_results : ℕ)
    (min_importance : ℚ) : List MemoryEntry :=
  let types := memory_types.getD defaultMemoryTypes
  let queryL := lowerChars query
  let all_results := gather_results s queryL types
  let scored_results := score_and_rank_results queryL now all_results
  let filtered_results :=
    (scored_results.filter (fun p => min_importance ≤ p.1.importance)).map Prod.fst
  filtered_results.take max_results

/-- `VectorMemorySystem.semantic_search` in the `embedding_model is None`
branch (`vector_memory.py`): it delegates to `smart_recall` with the same
query and `max_results` (defaults elsewhere) and pairs every hit with the
fixed similarity `1.0`; `similarity_threshold` is ignored. -/
def semantic_search_degraded (s : MemState) (now : ℚ) (query : String)
    (max_results : ℕ) (similarity_threshold : ℚ) : List (MemoryEntry × ℚ) :=
  let _ := similarity_threshold
  (smart_recall s now query none max_results 0).map (fun e => (e, 1))

/-- One node of the `knowledge_graph` dict of `memory_enhancer.py`.  The
`related_tags` dict is modelled as a total function with default `0`,
matching the create-if-absent-then-increment access pattern of the
source. -/
structure KGNode where
  count : ℕ
  related_tags : String → ℕ
  first_seen : ℚ
  last_seen : ℚ
  importance : ℚ

/-- The fresh node created on first occurrence of a tag. -/
def newKGNode (now : ℚ) : KGNode :=
  { count := 0, related_tags := fun _ => 0, first_seen := now, last_seen := now,
    importance := 0 }

/-- The inner loop of `_update_knowledge_graph`: for every `other_tag`
in `tags` different from `tag`, increment `related_tags[other_tag]`. -/
def bumpRelated (tag : String) (tags : List String) (rel : String → ℕ) : String → ℕ :=
  tags.foldl
    (fun r other =>
      if other ≠ tag then (fun t => if t = other then r t + 1 else r t) else r) rel

/-- One iteration of the outer loop of `_update_knowledge_graph`:
create-or-fetch the node of `tag`, bump `count`, refresh `last_seen`,
increase `importance` by 0.1 capped at 1, and run the inner loop. -/
def updateKGTag (now : ℚ) (tags : List String) (kg : String → Option KGNode)
    (tag : String) : String → Option KGNode :=
  let node := (kg tag).getD (newKGNode now)
  let node' : KGNode :=
    { count := node.count + 1
      related_tags := bumpRelated tag tags node.related_tags
      first_seen := node.first_seen
      last_seen := now
      importance := min 1 (node.importance + 1/10) }
  fun t => if t = tag then some node' else kg t

/-- `MemoryEnhancer._update_knowledge_graph`: early return on empty
tags, else the outer loop over `tags`. -/
def update_knowledge_graph (now : ℚ) (kg : String → Option KGNode)
    (tags : List String) : String → Option KGNode :=
  if tags.isEmpty then kg else tags.foldl (updateKGTag now tags) kg

/-- The co-occurrence counter stored under node `a` for tag `b`
(`knowledge_graph[a]["related_tags"][b]`), `0` when absent. -/
def relatedOf (kg : String → Option KGNode) (a b : String) : ℕ :=
  match kg a with
  | none => 0
  | some n => n.related_tags b

/-- Symmetry of the knowledge graph's co-occurrence counters. -/
def KGSymm (kg : String → Option KGNode) : Prop :=
  ∀ a b : String, a ≠ b → relatedOf kg a b = relatedOf kg b a

/-- The five importance-indicator weights of
`MemoryEnhancer._analyze_content`, in dict-literal order
(0.3, 0.2, 0.2, 0.1, 0.1). -/
def importanceWeights : List ℚ := [3/10, 2/10, 2/10, 1/10, 1/10]

/-- The importance computation of `_analyze_content`: start from 0.5,
add the weight of every indicator pattern that fires, cap at 1.  The
`re.search(pattern, content_lower)` tests are abstracted as the Boolean
list `hits`, one per pattern — the claims checked here hold for every
outcome of the regex engine. -/
def analyzed_importance (hits : List Bool) : ℚ :=
  min
    ((importanceWeights.zip hits).foldl
      (fun acc wb => if wb.2 then acc + wb.1 else acc) (1/2))
    1

/-- The importance stored by `MemoryEnhancer.add_memory_with_analysis`
when `auto_analyze=True`:
`final_importance = max(importance, analyzed_importance)`. -/
def analysis_final_importance (importance : ℚ) (hits : List Bool) : ℚ :=
  max importance (analyzed_importance hits)

/-- `smart_recall` as a state transformer: the source method only reads
the partitions and mutates nothing, so the faithful stateful embedding
returns the store unchanged alongside the result. -/
def smart_recall_run (s : MemState) (now : ℚ) (query : String)
    (memory_types : Option (List String)) (max_results : ℕ)
    (min_importance : ℚ) : List MemoryEntry × MemState :=
  (smart_recall s now query memory_types max_results min_importance, s)

/-- Spec-side lexical score, transcribed from §4.3 of the spec: 1.0 for
a substring hit, +0.5 prefix bonus, +0.3 per matching tag with no cap. -/
def spec_lexical_score (queryL : List Char) (e : MemoryEntry) : ℚ :=
  (if hasSubList (lowerChars e.content) queryL then
     1 + (if charsStartWith (lowerChars e.content) queryL then 5/10 else 0)
   else 0) +
  3/10 * (e.tags.countP (fun tag => hasSubList (lowerChars tag) queryL) : ℕ)

/-- Spec-side recency factor, transcribed from §4.3 of the spec:
`max(0.1, 1 - ageInSeconds/(7*86400))`. -/
def spec_recency (now : ℚ) (e : MemoryEntry) : ℚ :=
  max (1/10) (1 - (now - e.timestamp) / (7 * 86400))

/-- Concrete stand-in for the md5-based id generator. -/
def idFn : String → String := fun s => s

/-- `0.5` as a kernel-computable rational literal. -/
def qHalf : ℚ := Rat.mk' 1 2 (by norm_num) (by norm_num)

/-- `0.6` as a kernel-computable rational literal. -/
def qThreeFifths : ℚ := Rat.mk' 3 5 (by norm_num) (by norm_num)

/-- The store of the spec's concrete scenario: Record A
(`semantic`, importance 0.9, tags `["python"]`) inserted at time 0, then
Record B (`episodic`, importance 0.3, tags `["python","bug"]`) at
time 1. -/
def c1state : MemState :=
  (add_memory idFn 1
    ((add_memory idFn 0 (init_memory_components [])
        "Record A" "semantic" (9/10) ["python"] []).2)
    "Record B" "episodic" (3/10) ["python", "bug"] []).2

/-- A store with one matching episodic record of importance 1. -/
def c3state : MemState :=
  (add_memory idFn 0 (init_memory_components []) "python tips" "episodic" 1 [] []).2

/-- The entry held by `c3state`. -/
def c3entry : MemoryEntry := mkEntry idFn 0 "python tips" "episodic" 1 [] []

/-- A store with one matching episodic record, used to exercise the
close/reopen round trip. -/
def c4state : MemState :=
  (add_memory idFn 0 (init_memory_components []) "python tips" "episodic" qHalf [] []).2

/-- Two records that tie on the final score (both match the query `"q"`
as a prefix, equal importance, both older than a week) but have distinct
creation timestamps. -/
def c6e1 : MemoryEntry := mkEntry idFn 0 "q a" "episodic" 1 [] []

/-- The more recently created of the two tied records. -/
def c6e2 : MemoryEntry := mkEntry idFn 100 "q b" "episodic" 1 [] []

/-- A store whose two matching records swap rank as the clock advances:
the fresh low-importance record outranks the old higher-importance one
until its recency decays to the floor. -/
def c7state : MemState :=
  (add_memory idFn 604800
    ((add_memory idFn 0 (init_memory_components [])
        "p b" "episodic" qThreeFifths [] []).2)
    "p a" "episodic" qHalf [] []).2

/-- The record inserted at time 604800 into `c7state`. -/
def c7ea : MemoryEntry := mkEntry idFn 604800 "p a" "episodic" qHalf [] []

/-- The record inserted at time 0 into `c7state`. -/
def c7eb : MemoryEntry := mkEntry idFn 0 "p b" "episodic" qThreeFifths [] []

/-- The empty knowledge graph (`self.knowledge_graph = {}`). -/
def emptyKG : String → Option KGNode := fun _ => none

/-- Bridge from kernel-computable `Rat.mk'` literals to division form. -/
theorem ratMk_eq_div (n : ℤ) (d : ℕ) (h : d ≠ 0) (c : n.natAbs.Coprime d) :
    (Rat.mk' n d h c : ℚ) = (n : ℚ) / (d : ℚ) := by
  rw [Rat.mk'_eq_divInt, Rat.divInt_eq_div]
  norm_num

instance instIsTotalScoreGE {α : Type} :
    IsTotal (α × ℚ) (fun x y => y.2 ≤ x.2) :=
  ⟨fun a b => le_total b.2 a.2⟩

instance instIsTransScoreGE {α : Type} :
    IsTrans (α × ℚ) (fun x y => y.2 ≤ x.2) :=
  ⟨fun _ _ _ hab hbc => le_trans hbc hab⟩

/-- Inserting an element of score `s` leaves it in front of the
equal-score band: no skipped element can have score `s`. -/
theorem filter_orderedInsert_of_eq {α : Type} (s : ℚ) (a : α × ℚ)
    (l : List (α × ℚ)) (h : a.2 = s) :
    (List.orderedInsert (fun x y => y.2 ≤ x.2) a l).filter (fun x => decide (x.2 = s)) =
      a :: l.filter (fun x => decide (x.2 = s)) := by
  induction l with
  | nil => simp [List.orderedInsert, List.filter, h]
  | cons b bs ih =>
    by_cases hb : b.2 ≤ a.2
    · have hb' : b.2 ≤ s := h ▸ hb
      simp [List.orderedInsert, hb, hb', List.filter_cons, h]
    · have hb' : ¬ (b.2 ≤ s) := h ▸ hb
      have hbne : ¬ (b.2 = s) := fun hbe => hb' (le_of_eq hbe)
      simp [List.orderedInsert, hb, hb', List.filter_cons, hbne, ih]

/-- Inserting an element whose score differs from `s` does not change
the extracted score-`s` band. -/
theorem filter_orderedInsert_of_ne {α : Type} (s : ℚ) (a : α × ℚ)
    (l : List (α × ℚ)) (h : ¬ (a.2 = s)) :
    (List.orderedInsert (fun x y => y.2 ≤ x.2) a l).filter (fun x => decide (x.2 = s)) =
      l.filter (fun x => decide (x.2 = s)) := by
  induction l with
  | nil => simp [List.orderedInsert, List.filter, h]
  | cons b bs ih =>
    by_cases hb : b.2 ≤ a.2
    · simp [List.orderedInsert, hb, List.filter_cons, h]
    · simp [List.orderedInsert, hb, List.filter_cons, ih]

/-- Stability of the embedded Python sort: for every score value `s`,
the elements of score `s` appear in the sorted output in exactly their
input order. -/
theorem filter_insertionSort_score {α : Type} (s : ℚ) (l : List (α × ℚ)) :
    (List.insertionSort (fun x y => y.2 ≤ x.2) l).filter (fun x => decide (x.2 = s)) =
      l.filter (fun x => decide (x.2 = s)) := by
  induction l with
  | nil => rfl
  | cons a l ih =>
    by_cases ha : a.2 = s
    · rw [List.insertionSort, filter_orderedInsert_of_eq s a _ ha, ih]
      simp [List.filter_cons, ha]
    · rw [List.insertionSort, filter_orderedInsert_of_ne s a _ ha, ih]
      simp [List.filter_cons, ha]

/-- The ranked list of `_score_and_rank_results` is sorted descending by
score. -/
theorem sorted_score_and_rank (queryL : List Char) (now : ℚ)
    (results : List MemoryEntry) :
    (score_and_rank_results queryL now results).Sorted (fun x y => y.2 ≤ x.2) :=
  List.sorted_insertionSort _ _

/-- The tag bonus fold of `_score_and_rank_results` adds `0.3` once per
matching tag. -/
theorem foldl_tagBonus (queryL : List Char) (l : List String) (init : ℚ) :
    l.foldl (fun acc tag => if hasSubList (lowerChars tag) queryL then acc + 3/10 else acc)
        init =
      init + 3/10 * (l.countP (fun tag => hasSubList (lowerChars tag) queryL) : ℕ) := by
  induction l generalizing init with
  | nil => simp
  | cons t ts ih =>
    rw [List.foldl_cons, List.countP_cons]
    by_cases h : hasSubList (lowerChars t) queryL
    · rw [if_pos h, ih]
      simp only [h, if_pos]
      push_cast
      ring
    · rw [if_neg h, ih]
      simp [h]

/-- Every entry returned by `smart_recall` passed the importance
post-filter. -/
theorem importance_of_mem_smart_recall {s : MemState} {now : ℚ} {query : String}
    {types : Option (List String)} {maxr : ℕ} {minI : ℚ} {e : MemoryEntry}
    (h : e ∈ smart_recall s now query types maxr minI) : minI ≤ e.importance := by
  unfold smart_recall at h
  have h1 := List.take_subset maxr _ h
  rcases List.mem_map.1 h1 with ⟨p, hp, rfl⟩
  exact of_decide_eq_true (List.mem_filter.1 hp).2

/-- Every entry returned by `smart_recall` comes from the gathered
candidates, i.e. from one of the four scanned partitions. -/
theorem mem_gather_of_mem_smart_recall {s : MemState} {now : ℚ} {query : String}
    {types : Option (List String)} {maxr : ℕ} {minI : ℚ} {e : MemoryEntry}
    (h : e ∈ smart_recall s now query types maxr minI) :
    e ∈ gather_results s (lowerChars query) (types.getD defaultMemoryTypes) := by
  unfold smart_recall at h
  have h1 := List.take_subset maxr _ h
  rcases List.mem_map.1 h1 with ⟨p, hp, rfl⟩
  have h2 : p ∈ score_and_rank_results (lowerChars query) now
      (gather_results s (lowerChars query) (types.getD defaultMemoryTypes)) :=
    (List.mem_filter.1 hp).1
  unfold score_and_rank_results at h2
  have h3 := (List.perm_insertionSort (fun x y : MemoryEntry × ℚ => y.2 ≤ x.2) _).mem_iff.1 h2
  rcases List.mem_map.1 h3 with ⟨e', he', hpe⟩
  rw [← hpe]
  exact he'

/-- Effect of the inner loop on one counter: `0.3`-free bookkeeping —
`related_tags[b]` grows by the multiplicity of `b` in `tags`, except at
`b = tag`, which the `other_tag != tag` guard skips. -/
theorem bumpRelated_apply (tag : String) (tags : List String) (rel : String → ℕ)
    (b : String) :
    bumpRelated tag tags rel b = rel b + (if b = tag then 0 else tags.count b) := by
  induction tags generalizing rel with
  | nil => simp [bumpRelated]
  | cons t ts ih =>
    simp only [bumpRelated, List.foldl_cons] at ih ⊢
    rw [ih]
    by_cases ht : t = tag
    · subst ht
      by_cases hb : b = t <;> simp [hb, List.count_cons]
    · by_cases hb : b = t
      · subst hb
        have hbt : ¬ (b = tag) := ht
        simp [ht, hbt, List.count_cons]
        omega
      · simp [ht, hb, List.count_cons]

/-- Effect of one outer-loop iteration on the processed tag's counters. -/
theorem relatedOf_updateKGTag_self (now : ℚ) (tags : List String)
    (kg : String → Option KGNode) (tag b : String) (hb : ¬ (b = tag)) :
    relatedOf (updateKGTag now tags kg tag) tag b =
      relatedOf kg tag b + tags.count b := by
  unfold updateKGTag relatedOf
  simp only [if_pos]
  rw [bumpRelated_apply]
  cases h : kg tag <;> simp [h, newKGNode, hb]

/-- One outer-loop iteration leaves every other node untouched. -/
theorem relatedOf_updateKGTag_other (now : ℚ) (tags : List String)
    (kg : String → Option KGNode) (tag a b : String) (ha : ¬ (a = tag)) :
    relatedOf (updateKGTag now tags kg tag) a b = relatedOf kg a b := by
  unfold updateKGTag relatedOf
  simp [ha]

/-- Running the outer loop over `ts` adds
`(multiplicity of a in ts) * (multiplicity of b in tags)` to the counter
stored under `a` for `b`, for distinct `a`, `b`. -/
theorem relatedOf_foldl_update (now : ℚ) (tags : List String) (a b : String)
    (hab : ¬ (a = b)) :
    ∀ (ts : List String) (kg : String → Option KGNode),
      relatedOf (ts.foldl (updateKGTag now tags) kg) a b =
        relatedOf kg a b + ts.count a * tags.count b := by
  intro ts
  induction ts with
  | nil => intro kg; simp
  | cons t ts ih =>
    intro kg
    rw [List.foldl_cons, ih]
    by_cases ht : t = a
    · subst ht
      rw [relatedOf_updateKGTag_self now tags kg t b (fun h => hab (h.symm))]
      simp [List.count_cons]
      ring
    · rw [relatedOf_updateKGTag_other now tags kg t a b (fun h => ht (h.symm))]
      have hta : ¬ (a = t) := fun h => ht h.symm
      simp [List.count_cons, hta]

/-- Additions guarded by booleans only increase the accumulator when
every summand is nonnegative. -/
theorem foldl_weights_ge (l : List (ℚ × Bool)) (init : ℚ) (h : ∀ p ∈ l, 0 ≤ p.1) :
    init ≤ l.foldl (fun acc wb => if wb.2 then acc + wb.1 else acc) init := by
  induction l generalizing init with
  | nil => simp
  | cons p ps ih =>
    rw [List.foldl_cons]
    have h0 : 0 ≤ p.1 := h p (List.mem_cons_self p ps)
    have step : init ≤ (if p.2 then init + p.1 else init) := by
      split <;> linarith
    exact le_trans step (ih _ (fun q hq => h q (List.mem_cons_of_mem _ hq)))

/-- The analyzed importance of `_analyze_content` always lies in
`[1/2, 1]`: it starts from 0.5, only ever adds nonnegative indicator
weights, and is capped by `min(·, 1.0)`. -/
theorem analyzed_importance_bounds (hits : List Bool) :
    1/2 ≤ analyzed_importance hits ∧ analyzed_importance hits ≤ 1 := by
  constructor
  · apply le_min
    · apply foldl_weights_ge
      intro p hp
      have hm := (List.of_mem_zip hp).1
      simp only [importanceWeights, List.mem_cons, List.not_mem_nil, or_false] at hm
      rcases hm with h | h | h | h | h <;> rw [h] <;> norm_num
    · norm_num
  · exact min_le_right _ _

/-- `smart_recall` spelled out as its gather–score–sort–filter–truncate
pipeline (definitional). -/
theorem smart_recall_eq (s : MemState) (now : ℚ) (query : String)
    (types : Option (List String)) (maxr : ℕ) (minI : ℚ) :
    smart_recall s now query types maxr minI =
      (((score_and_rank_results (lowerChars query) now
            (gather_results s (lowerChars query) (types.getD defaultMemoryTypes))).filter
          (fun p => minI ≤ p.1.importance)).map Prod.fst).take maxr := rfl

/-- C2: for every query and candidate record, the score computed by the
ranking step equals `0.6*lexical + 0.3*importance + 0.1*recency`, where
the lexical score is 1.0 for a substring hit plus a 0.5 prefix bonus
plus an uncapped 0.3 per matching tag, and the recency factor
`max(0.1, 1 - age/(7*86400))` is strictly positive for every age. -/
theorem C2_relevance_score_formula (query : String) (now : ℚ) (e : MemoryEntry) :
    entryScore (lowerChars query) now e =
      6/10 * spec_lexical_score (lowerChars query) e + 3/10 * e.importance +
        1/10 * spec_recency now e ∧
    0 < spec_recency now e := by
  constructor
  · unfold entryScore spec_lexical_score spec_recency
    dsimp only
    rw [foldl_tagBonus]
    by_cases h1 : hasSubList (lowerChars e.content) (lowerChars query)
    · by_cases h2 : charsStartWith (lowerChars e.content) (lowerChars query)
      · simp only [h1, h2, if_pos]
        norm_num
        ring
      · simp only [h1, h2, if_pos, if_neg, Bool.false_eq_true, not_false_eq_true]
        norm_num
        ring
    · simp only [h1, if_neg, Bool.false_eq_true, not_false_eq_true]
      norm_num
      ring
  · exact lt_of_lt_of_le (by norm_num) (le_max_left _ _)

/-- C3: `smart_recall` never returns a record whose importance is below
the `min_importance` floor, and the floor is a post-filter: candidates
are scored and sorted first, then filtered, then truncated to
`max_results`. -/
theorem C3_min_importance_post_filter (s : MemState) (now : ℚ) (query : String)
    (types : Option (List String)) (maxr : ℕ) (minI : ℚ) :
    (∀ e, e ∈ smart_recall s now query types maxr minI → minI ≤ e.importance) ∧
    smart_recall s now query types maxr minI =
      (((score_and_rank_results (lowerChars query) now
            (gather_results s (lowerChars query) (types.getD defaultMemoryTypes))).filter
          (fun p => minI ≤ p.1.importance)).map Prod.fst).take maxr :=
  ⟨fun _ he => importance_of_mem_smart_recall he, rfl⟩

/-- C3 witness: on a concrete store the floor 1/2 is satisfied by the
returned record of importance 1. -/
theorem C3_min_importance_post_filter_witness : qHalf ≤ c3entry.importance :=
  (C3_min_importance_post_filter c3state 1 "python" none 10 qHalf).1 c3entry (by decide)

/-- C5: for any two distinct co-occurring tags, the co-occurrence
counters stored under each node for the other stay equal across every
knowledge-graph update. -/
theorem C5_knowledge_graph_symmetry (kg : String → Option KGNode) (now : ℚ)
    (tags : List String) (h : KGSymm kg) :
    KGSymm (update_knowledge_graph now kg tags) := by
  intro a b hab
  unfold update_knowledge_graph
  by_cases he : tags.isEmpty
  · rw [if_pos he]
    exact h a b hab
  · rw [if_neg he, relatedOf_foldl_update now tags a b hab tags kg,
      relatedOf_foldl_update now tags b a (fun hba => hab hba.symm) tags kg,
      h a b hab]
    ring

/-- C5 witness: updating the empty graph with the tags of the spec's
Record B preserves symmetry. -/
theorem C5_knowledge_graph_symmetry_witness :
    KGSymm (update_knowledge_graph 5 emptyKG ["python", "bug"]) :=
  C5_knowledge_graph_symmetry emptyKG 5 ["python", "bug"] (fun _ _ _ => rfl)

/-- C8: with the embedding backend absent, `semantic_search` returns
exactly the `smart_recall` results for the same query and limit, each
paired with similarity 1.0, so the id sequences coincide. -/
theorem C8_semantic_search_degrades_to_recall (s : MemState) (now : ℚ)
    (query : String) (maxr : ℕ) (threshold : ℚ) :
    (semantic_search_degraded s now query maxr threshold).map Prod.fst =
        smart_recall s now query none maxr 0 ∧
    ((semantic_search_degraded s now query maxr threshold).all
        (fun p => decide (p.2 = 1))) = true ∧
    (semantic_search_degraded s now query maxr threshold).map (fun p => p.1.id) =
      (smart_recall s now query none maxr 0).map (fun e => e.id) := by
  refine ⟨?_, ?_, ?_⟩
  · unfold semantic_search_degraded
    simp only [List.map_map]
    have hid : (Prod.fst ∘ fun e : MemoryEntry => (e, (1 : ℚ))) = id := rfl
    rw [hid, List.map_id]
  · unfold semantic_search_degraded
    simp [List.all_map]
  · unfold semantic_search_degraded
    simp [List.map_map]

/-- C10: a `memory_type` outside the four indexed tiers — including the
documented kind `semantic` — is persisted to the `memories` table with
its id returned, reaches no in-memory partition, and leaves every
`smart_recall` result unchanged, so the record can never be recalled in
this process lifetime. -/
theorem C10_unindexed_kind_is_unrecallable (genId : String → String) (now : ℚ)
    (s : MemState) (content memory_type : String) (imp : ℚ) (tags : List String)
    (metadata : List (String × String))
    (h : ¬ (memory_type ∈ ["working", "episodic", "procedural", "project"])) :
    (add_memory genId now s content memory_type imp tags metadata).1 =
        (mkEntry genId now content memory_type imp tags metadata).id ∧
    (add_memory genId now s content memory_type imp tags metadata).2.db =
        dbUpsert (mkEntry genId now content memory_type imp tags metadata) s.db ∧
    (add_memory genId now s content memory_type imp tags metadata).2.working = s.working ∧
    (add_memory genId now s content memory_type imp tags metadata).2.semantic_memory =
        s.semantic_memory ∧
    (add_memory genId now s content memory_type imp tags metadata).2.episodic = s.episodic ∧
    (add_memory genId now s content memory_type imp tags metadata).2.procedural =
        s.procedural ∧
    (add_memory genId now s content memory_type imp tags metadata).2.project = s.project ∧
    ∀ (now' : ℚ) (query : String) (types : Option (List String)) (maxr : ℕ) (minI : ℚ),
      smart_recall (add_memory genId now s content memory_type imp tags metadata).2
          now' query types maxr minI =
        smart_recall s now' query types maxr minI := by
  have h1 : ¬ (memory_type = "working") := fun he => h (by rw [he]; simp)
  have h2 : ¬ (memory_type = "episodic") := fun he => h (by rw [he]; simp)
  have h3 : ¬ (memory_type = "procedural") := fun he => h (by rw [he]; simp)
  have h4 : ¬ (memory_type = "project") := fun he => h (by rw [he]; simp)
  have hs : add_memory genId now s content memory_type imp tags metadata =
      ((mkEntry genId now content memory_type imp tags metadata).id,
        { s with db := dbUpsert (mkEntry genId now content memory_type imp tags metadata) s.db }) := by
    unfold add_memory
    dsimp only
    rw [if_neg h1, if_neg h2, if_neg h3, if_neg h4]
  rw [hs]
  exact ⟨rfl, rfl, rfl, rfl, rfl, rfl, rfl, fun _ _ _ _ _ => rfl⟩

/-- C10 witness: inserting a `semantic` record into the empty store
leaves a concrete recall result unchanged. -/
theorem C10_unindexed_kind_is_unrecallable_witness :
    smart_recall (add_memory idFn 0 (init_memory_components []) "x" "semantic" 1 [] []).2
        1 "x" none 10 0 =
      smart_recall (init_memory_components []) 1 "x" none 10 0 :=
  (C10_unindexed_kind_is_unrecallable idFn 0 (init_memory_components []) "x" "semantic" 1 []
      [] (by decide)).2.2.2.2.2.2.2 1 "x" none 10 0

/-- C9 counterexample: `add_memory` stores the caller-supplied importance
unclamped — inserting with importance 2 persists 2 both to the episodic
partition and to the `memories` table, and 2 is outside `[0, 1]`. -/
theorem C9_counterexample_importance_not_clamped :
    ((add_memory idFn 0 (init_memory_components []) "x" "episodic" 2 [] []).2.db.getLast?).map
        MemoryEntry.importance = some 2 ∧
    ((add_memory idFn 0 (init_memory_components []) "x" "episodic" 2 [] []).2.episodic.map
        MemoryEntry.importance) = [2] ∧
    ¬ ((2 : ℚ) ≤ 1) :=
  ⟨by decide, by decide, by decide⟩

/-- C9 (amended): no insert path clamps — plain `add_memory` persists
exactly the caller's importance (so it lies in `[0,1]` only if the
caller's value does), while `add_memory_with_analysis` stores
`max(importance, analyzed)` with the analyzed part in `[1/2, 1]`, which
lies in `[0, 1]` whenever the caller's value is at most 1. -/
theorem C9_amended_importance_unclamped (genId : String → String) (now : ℚ)
    (s : MemState) (content memory_type : String) (imp : ℚ) (tags : List String)
    (metadata : List (String × String)) (hits : List Bool) (h1 : imp ≤ 1) :
    ((add_memory genId now s content memory_type imp tags metadata).2.db.getLast?).map
        MemoryEntry.importance = some imp ∧
    0 ≤ analysis_final_importance imp hits ∧
    analysis_final_importance imp hits ≤ 1 := by
  refine ⟨?_, ?_, ?_⟩
  · unfold add_memory
    dsimp only
    split_ifs <;> simp [dbUpsert, List.getLast?_concat, mkEntry]
  · exact le_trans (by norm_num)
      (le_trans (analyzed_importance_bounds hits).1 (le_max_right _ _))
  · exact max_le h1 (analyzed_importance_bounds hits).2

/-- C9 witness: with caller importance 0.5 and two firing indicator
patterns, the stored analysis importance lies in `[0, 1]` and the plain
path persists exactly 0.5. -/
theorem C9_amended_importance_unclamped_witness :
    ((add_memory idFn 0 (init_memory_components []) "y" "episodic" qHalf [] []).2.db.getLast?).map
        MemoryEntry.importance = some qHalf ∧
    0 ≤ analysis_final_importance qHalf [true, false, true, false, false] ∧
    analysis_final_importance qHalf [true, false, true, false, false] ≤ 1 :=
  C9_amended_importance_unclamped idFn 0 (init_memory_components []) "y" "episodic" qHalf []
    [] [true, false, true, false, false] (by decide)

/-- C1 counterexample: in the spec's concrete scenario the recall does
not return `[Record A]` — the `semantic` record is routed to no scanned
partition and Record B matches the query only through its tags, which the
candidate search ignores. -/
theorem C1_counterexample_scenario_not_record_a :
    c1state.db.map MemoryEntry.content = ["Record A", "Record B"] ∧
    smart_recall c1state 2 "python" none 10 (1/2) ≠
      [mkEntry idFn 0 "Record A" "semantic" (9/10) ["python"] []] :=
  ⟨by decide, by decide⟩

/-- C1 (amended): in the concrete scenario,
`recall("python", minImportance=0.5)` returns the empty list — Record A
is persisted but never indexed in memory, and Record B is no candidate
because the search only matches the query against record contents. -/
theorem C1_amended_scenario_returns_empty :
    smart_recall c1state 2 "python" none 10 (1/2) = [] := by decide

/-- C4 counterexample: recall finds the inserted episodic record before
the close, but after reconstructing the store over the same `memories`
rows (`_init_memory_components` reloads nothing) the same query returns
the empty list, so the pre-close results are not reproduced. -/
theorem C4_counterexample_reopen_loses_recall :
    (smart_recall c4state 1 "python" none 10 0).map MemoryEntry.content = ["python tips"] ∧
    smart_recall (init_memory_components c4state.db) 1 "python" none 10 0 = [] ∧
    smart_recall (init_memory_components c4state.db) 1 "python" none 10 0 ≠
      smart_recall c4state 1 "python" none 10 0 :=
  ⟨by decide, by decide, by decide⟩

/-- C4 (amended): reopening rebuilds nothing — a store constructed over
any durable rows starts with all in-memory partitions empty, so every
recall on the freshly reopened store returns the empty list until new
inserts arrive (the rows themselves stay in the `memories` table). -/
theorem C4_amended_reopen_recalls_nothing (db : List MemoryEntry) (now : ℚ)
    (query : String) (types : Option (List String)) (maxr : ℕ) (minI : ℚ) :
    smart_recall (init_memory_components db) now query types maxr minI = [] ∧
    (init_memory_components db).db = db := by
  constructor
  · rw [smart_recall_eq]
    have hg : gather_results (init_memory_components db) (lowerChars query)
        (types.getD defaultMemoryTypes) = [] := by
      unfold gather_results search_working_memory search_episodic_memory
        search_procedural_memory search_project_memory init_memory_components
      simp
    rw [hg]
    simp [score_and_rank_results]
  · rfl

/-- C6 counterexample: two candidates tie on the final score yet the
older record precedes the newer one in the ranked output — the sort is
keyed on the score alone and is stable, so ties keep candidate order,
not `createdAt`-descending order. -/
theorem C6_counterexample_ties_not_by_created_at :
    c6e1.timestamp < c6e2.timestamp ∧
    ¬ List.Pairwise (fun x y : MemoryEntry × ℚ => x.2 = y.2 → y.1.timestamp ≤ x.1.timestamp)
        (score_and_rank_results (lowerChars "q") 10000000 [c6e1, c6e2]) := by
  have h1 : entryScore (lowerChars "q") 10000000 c6e1 =
      Rat.mk' 121 100 (by norm_num) (by norm_num) := by
    unfold entryScore c6e1 mkEntry
    dsimp only
    simp only [ratMk_eq_div]
    norm_num [show hasSubList (lowerChars "q a") (lowerChars "q") = true from by decide,
      show charsStartWith (lowerChars "q a") (lowerChars "q") = true from by decide,
      max_def]
  have h2 : entryScore (lowerChars "q") 10000000 c6e2 =
      Rat.mk' 121 100 (by norm_num) (by norm_num) := by
    unfold entryScore c6e2 mkEntry
    dsimp only
    simp only [ratMk_eq_div]
    norm_num [show hasSubList (lowerChars "q b") (lowerChars "q") = true from by decide,
      show charsStartWith (lowerChars "q b") (lowerChars "q") = true from by decide,
      max_def]
  refine ⟨by decide, ?_⟩
  unfold score_and_rank_results
  rw [List.map_cons, List.map_cons, List.map_nil, h1, h2]
  decide

/-- C6 (amended): the ranked list is sorted descending by final score,
and equal-score candidates appear in their candidate-collection order —
the stable sort breaks ties by input position, not by `createdAt`. -/
theorem C6_amended_ties_keep_candidate_order (queryL : List Char) (now : ℚ)
    (results : List MemoryEntry) (sc : ℚ) :
    (score_and_rank_results queryL now results).Sorted (fun x y => y.2 ≤ x.2) ∧
    (score_and_rank_results queryL now results).filter (fun x => decide (x.2 = sc)) =
      (results.map (fun e => (e, entryScore queryL now e))).filter
        (fun x => decide (x.2 = sc)) :=
  ⟨sorted_score_and_rank queryL now results, filter_insertionSort_score sc _⟩

/-- C7 counterexample: with the store state unchanged, two runs of
recall at different clock readings return different ordered lists — the
fresh record outranks the higher-importance one while its recency factor
is high, and drops behind it once the factor decays to the floor. -/
theorem C7_counterexample_clock_changes_result :
    c7state.episodic = [c7eb, c7ea] ∧
    smart_recall c7state 604800 "p" none 10 0 = [c7ea, c7eb] ∧
    smart_recall c7state 1814400 "p" none 10 0 = [c7eb, c7ea] ∧
    smart_recall c7state 604800 "p" none 10 0 ≠
      smart_recall c7state 1814400 "p" none 10 0 := by
  have hg : gather_results c7state (lowerChars "p") defaultMemoryTypes = [c7eb, c7ea] := by
    decide
  have ha1 : entryScore (lowerChars "p") 604800 c7ea =
      Rat.mk' 23 20 (by norm_num) (by norm_num) := by
    unfold entryScore c7ea mkEntry qHalf
    dsimp only
    simp only [ratMk_eq_div]
    norm_num [show hasSubList (lowerChars "p a") (lowerChars "p") = true from by decide,
      show charsStartWith (lowerChars "p a") (lowerChars "p") = true from by decide,
      max_def]
  have hb1 : entryScore (lowerChars "p") 604800 c7eb =
      Rat.mk' 109 100 (by norm_num) (by norm_num) := by
    unfold entryScore c7eb mkEntry qThreeFifths
    dsimp only
    simp only [ratMk_eq_div]
    norm_num [show hasSubList (lowerChars "p b") (lowerChars "p") = true from by decide,
      show charsStartWith (lowerChars "p b") (lowerChars "p") = true from by decide,
      max_def]
  have ha2 : entryScore (lowerChars "p") 1814400 c7ea =
      Rat.mk' 53 50 (by norm_num) (by norm_num) := by
    unfold entryScore c7ea mkEntry qHalf
    dsimp only
    simp only [ratMk_eq_div]
    norm_num [show hasSubList (lowerChars "p a") (lowerChars "p") = true from by decide,
      show charsStartWith (lowerChars "p a") (lowerChars "p") = true from by decide,
      max_def]
  have hb2 : entryScore (lowerChars "p") 1814400 c7eb =
      Rat.mk' 109 100 (by norm_num) (by norm_num) := by
    unfold entryScore c7eb mkEntry qThreeFifths
    dsimp only
    simp only [ratMk_eq_div]
    norm_num [show hasSubList (lowerChars "p b") (lowerChars "p") = true from by decide,
      show charsStartWith (lowerChars "p b") (lowerChars "p") = true from by decide,
      max_def]
  have e1 : smart_recall c7state 604800 "p" none 10 0 = [c7ea, c7eb] := by
    rw [smart_recall_eq]
    simp only [Option.getD_none]
    rw [hg]
    unfold score_and_rank_results
    rw [List.map_cons, List.map_cons, List.map_nil, ha1, hb1]
    decide
  have e2 : smart_recall c7state 1814400 "p" none 10 0 = [c7eb, c7ea] := by
    rw [smart_recall_eq]
    simp only [Option.getD_none]
    rw [hg]
    unfold score_and_rank_results
    rw [List.map_cons, List.map_cons, List.map_nil, ha2, hb2]
    decide
  refine ⟨by decide, e1, e2, ?_⟩
  rw [e1, e2]
  decide

/-- C7 (amended): at a fixed clock reading, recall is a pure
deterministic read — the stateful embedding returns the store unchanged,
and a second run over the state left by the first returns the identical
ordered list. -/
theorem C7_amended_pure_read_at_fixed_clock (s : MemState) (now : ℚ) (query : String)
    (types : Option (List String)) (maxr : ℕ) (minI : ℚ) :
    (smart_recall_run s now query types maxr minI).2 = s ∧
    (smart_recall_run ((smart_recall_run s now query types maxr minI).2) now query types
        maxr minI).1 =
      (smart_recall_run s now query types maxr minI).1 ∧
    (smart_recall_run s now query types maxr minI).1 =
      smart_recall s now query types maxr minI :=
  ⟨rfl, rfl, rfl⟩
